import Mathlib

/-!
# CallSheetCraft — shallow embedding and verification

Shallow embedding of the CallSheetCraft server core (document-to-domain
parser, enrichment-merge pipeline, authentication/sanitization layer) and
proofs about it.

Sources embedded:
* `server/services/geminiService.js` — `needsEnrichment`, the consolidated
  single-call `enrichProduction`;
* the craft service (`parseKeyValueTable`, `parseDataTable`,
  `parseProduction`);
* the API routes file carrying `normalizePhone`, `sanitizeProduction`,
  `findUserByPhone` and the `POST /production/:id/authenticate` handler.

Conventions of the embedding:
* JS objects used as string-keyed maps become association lists
  (`StrMap`) with insertion-order preserving, overwrite-on-repeat insert
  (mirroring JS property assignment) and first-match lookup;
* a table cell is an `Option String` (`none` = the cell or its `value`
  field is missing), a row is a list of cells;
* `undefined`/`null` string results become `Option String`;
* JS truthiness on strings is `s ≠ ""`;
* `String.prototype.trim`, `toLowerCase`, `includes`, `startsWith` and the
  `\D`-stripping regex are re-implemented over character lists so that all
  definitions reduce inside the kernel.
-/

/-! ## Character/string primitives (models of the JS string methods) -/

/-- Model of `String.prototype.trim`: drop whitespace from both ends. -/
def jsTrim (s : String) : String :=
  String.mk (((s.data.dropWhile Char.isWhitespace).reverse.dropWhile Char.isWhitespace).reverse)

/-- Model of `String.prototype.toLowerCase` (ASCII letters, which is all the
parser compares). -/
def jsToLower (s : String) : String :=
  String.mk (s.data.map Char.toLower)

/-- Test whether `l` starts with `pat`. -/
def startsWithL : List Char → List Char → Bool
  | [], _ => true
  | _ :: _, [] => false
  | p :: ps, c :: cs => p == c && startsWithL ps cs

/-- Test whether `pat` occurs contiguously inside `l`. -/
def containsL (pat : List Char) : List Char → Bool
  | [] => startsWithL pat []
  | c :: cs => startsWithL pat (c :: cs) || containsL pat cs

/-- Model of `s.includes(pat)`. -/
def jsIncludes (s pat : String) : Bool :=
  containsL pat.data s.data

/-- Model of `s.startsWith(pat)`. -/
def jsStartsWith (s pat : String) : Bool :=
  startsWithL pat.data s.data

/-- Model of `s.replace('#', '')` : drop the first `'#'` only. -/
def dropFirstHashL : List Char → List Char
  | [] => []
  | c :: cs => if c == '#' then cs else c :: dropFirstHashL cs

/-- Model of `markdown.replace('#', '')` as done on H1 headings. -/
def dropFirstHash (s : String) : String :=
  String.mk (dropFirstHashL s.data)

/-- Model of `phone?.replace(/\D/g, '') || ''` : keep ASCII digits;
`none` (an absent field) normalizes to the empty string. -/
def normalizePhone (phone : Option String) : String :=
  match phone with
  | none => ""
  | some s => String.mk (s.data.filter Char.isDigit)

/-! ## String-keyed maps (JS objects) -/

/-- A JS object used as a map from string keys to string values, kept in
insertion order. -/
abbrev StrMap := List (String × String)

/-- Property read `m[k]` : first binding wins (insert keeps keys unique). -/
def strLookup (m : StrMap) (k : String) : Option String :=
  match m with
  | [] => none
  | (k2, v) :: rest => if k2 = k then some v else strLookup rest k

/-- Property write `m[k] = v` : overwrite in place if the key exists,
otherwise append (JS property-assignment semantics). -/
def mapInsert (m : StrMap) (k v : String) : StrMap :=
  match m with
  | [] => [(k, v)]
  | (k2, v2) :: rest => if k2 = k then (k, v) :: rest else (k2, v2) :: mapInsert rest k v

/-- Model of removing a property (the `{ Phone, phone, ...rest }`
destructuring): drop every binding of the key. -/
def mapErase (m : StrMap) (k : String) : StrMap :=
  m.filter (fun p => p.1 ≠ k)

theorem strLookup_mapInsert_self (m : StrMap) (k v : String) :
    strLookup (mapInsert m k v) k = some v := by
  induction m with
  | nil => simp [mapInsert, strLookup]
  | cons hd tl ih =>
    obtain ⟨k2, v2⟩ := hd
    by_cases h : k2 = k
    · simp [mapInsert, h, strLookup]
    · simp [mapInsert, h, strLookup, ih]

theorem strLookup_mapInsert_ne (m : StrMap) (k k' v : String) (h : k' ≠ k) :
    strLookup (mapInsert m k' v) k = strLookup m k := by
  induction m with
  | nil => simp [mapInsert, strLookup, h]
  | cons hd tl ih =>
    obtain ⟨k2, v2⟩ := hd
    by_cases h2 : k2 = k'
    · subst h2
      simp [mapInsert, strLookup, h]
    · by_cases h3 : k2 = k
      · subst h3
        rw [mapInsert, if_neg h2, strLookup, if_pos rfl, strLookup, if_pos rfl]
      · rw [mapInsert, if_neg h2, strLookup, if_neg h3, strLookup, if_neg h3, ih]

/-! ## Free-form property values (`production.properties`) -/

/-- A JSON-ish property value as stored in `item.properties`
(shoot metadata: strings, the `closed_set` boolean, numbers). -/
inductive JVal where
  | jstr (s : String)
  | jbool (b : Bool)
  | jnum (n : Int)
  | jnull
deriving DecidableEq, Repr

abbrev PropMap := List (String × JVal)

/-- Property read on `properties`. -/
def plookup (m : PropMap) (k : String) : Option JVal :=
  match m with
  | [] => none
  | (k2, v) :: rest => if k2 = k then some v else plookup rest k

/-! ## Domain model -/

/-- A parsed location: 1-based discovery index, optional backing table id,
plain fields, and the `GEM`-prefixed enrichment fields. -/
structure Location where
  index : Nat
  tableId : Option String
  data : StrMap
  gemData : StrMap
deriving DecidableEq, Repr

/-- A parsed production (`parseProduction` result shape). -/
structure Production where
  id : String
  title : String
  properties : PropMap
  crew : List StrMap
  cast : List StrMap
  locations : List Location
  scenes : List StrMap
deriving DecidableEq, Repr

/-! ## EnrichmentGate — `needsEnrichment` (geminiService.js) -/

/-- The ten fixed GEM field names (`requiredFields` in the source). -/
def requiredFields : List String :=
  [ "GEMnearestHospital"
  , "GEMnearestFireStation"
  , "GEMnearestPoliceStation"
  , "GEMnearestEmergencyAfterHours"
  , "GEMsunriseTime"
  , "GEMsunsetTime"
  , "GEMweatherTemp"
  , "GEMweatherDesc"
  , "GEMpublicTransportInfo"
  , "GEMtransportDesc" ]

/-- Model of `!gemData[field] || gemData[field].trim() === ''` for one field:
the field is absent, or blank after trimming. -/
def blankField (gemData : StrMap) (f : String) : Bool :=
  match strLookup gemData f with
  | none => true
  | some s => jsTrim s == ""

/-- Predicate `needsEnrichment(gemData)` : some required field is absent or blank. -/
def needsEnrichment (gemData : StrMap) : Bool :=
  requiredFields.any (blankField gemData)

/-! ## TableCodec (craft service `parseKeyValueTable` / `parseDataTable`)

A table block is a list of rows; a row is a list of cells; a cell is an
`Option String` (`none` models a missing cell value). -/

/-- A table cell: `some s` when the cell carries the text `s`. -/
abbrev Cell := Option String

abbrev Row := List Cell

/-- Model of `cell?.value?.trim() || ''` on a cell that is present in the row. -/
def cellText (c : Cell) : String :=
  match c with
  | some s => jsTrim s
  | none => ""

/-- Model of `row[j]?.value?.trim() || ''` : a missing cell (index past the row's
end) yields the empty string. -/
def cellAt (row : Row) (j : Nat) : String :=
  match row.get? j with
  | some c => cellText c
  | none => ""

/-- Decoder `parseKeyValueTable`: rows with at least two cells contribute
`trimmedKey ↦ trimmedValue`; blank keys are skipped; later duplicate keys
overwrite earlier ones. -/
def parseKeyValueTable (rows : List Row) : StrMap :=
  rows.foldl
    (fun m row =>
      if 2 ≤ row.length then
        let key := cellAt row 0
        if key = "" then m else mapInsert m key (cellAt row 1)
      else m)
    []

/-- The inner loop of `parseDataTable` building one record: for each header
position `j`, `rowData[headers[j]] = row[j]?.value?.trim() || ''`. -/
def rowRecordAux (row : Row) : Nat → List String → StrMap → StrMap
  | _, [], m => m
  | j, h :: hs, m => rowRecordAux row (j + 1) hs (mapInsert m h (cellAt row j))

/-- The record built from one data row under the given headers. -/
def rowRecord (headers : List String) (row : Row) : StrMap :=
  rowRecordAux row 0 headers []

/-- The `hasData` flag of `parseDataTable`: some cell under a header
position is non-empty after trimming. -/
def rowHasData (headers : List String) (row : Row) : Bool :=
  (List.range headers.length).any (fun j => cellAt row j != "")

/-- Decoder `parseDataTable`: the first row gives the (trimmed) headers, each later
row becomes a record, and rows whose values are all empty are dropped.
The source's `rows.length < 2` early return is the `[]` result of the nil
and singleton cases here. -/
def parseDataTable (rows : List Row) : List StrMap :=
  match rows with
  | [] => []
  | headerRow :: dataRows =>
    if dataRows.isEmpty then []
    else
      let headers := headerRow.map cellText
      dataRows.filterMap
        (fun row => if rowHasData headers row then some (rowRecord headers row) else none)

/-! ## DocumentParser (`parseProduction`) -/

/-- A content block as consumed by `parseProduction`.  `heading1` and
`heading2` are text blocks with `textStyle` `'h1'`/`'h2'` carrying their
markdown; `table` carries the block id and its rows; `other` is any block
the parser ignores. -/
inductive Block where
  | heading1 (markdown : String)
  | heading2 (markdown : String)
  | table (id : String) (rows : List Row)
  | other
deriving DecidableEq, Repr

/-- A collection item as consumed by `parseProduction`: id, the two title
fields (`item.production_title || item.title`), properties, content. -/
structure Item where
  id : String
  title : String
  productionTitle : Option String
  properties : PropMap
  content : List Block
deriving DecidableEq, Repr

/-- The walking state of `parseProduction`: the production built so far,
`currentSection`, the position of `currentLocation` inside
`production.locations`, and the `locationIndex` counter. -/
structure ParseState where
  production : Production
  currentSection : Option String
  currentLocation : Option Nat
  locationIndex : Nat
deriving DecidableEq, Repr

/-- Apply `f` to the location at one position, every other location kept. -/
def updateAt (locs : List Location) (i : Nat) (f : Location → Location) : List Location :=
  match locs, i with
  | [], _ => []
  | l :: rest, 0 => f l :: rest
  | l :: rest, n + 1 => l :: updateAt rest n f

/-- Routing of one decoded key/value table into the current location:
keys starting with `GEM` (case-sensitive) go to `gemData`, all others to
`data` (the `for...of Object.entries` loop). -/
def routeLocationData : Location → StrMap → Location
  | loc, [] => loc
  | loc, p :: kv =>
    routeLocationData
      (if jsStartsWith p.1 "GEM" then { loc with gemData := mapInsert loc.gemData p.1 p.2 }
       else { loc with data := mapInsert loc.data p.1 p.2 })
      kv

/-- The H1 section dispatch: substring match on the lowercased heading text
with the leading `'#'` removed, first matching keyword wins. -/
def sectionOf (markdown : String) : Option String :=
  let sectionName := jsToLower (jsTrim (dropFirstHash markdown))
  if jsIncludes sectionName "crew" then some "crew"
  else if jsIncludes sectionName "cast" then some "cast"
  else if jsIncludes sectionName "location" then some "locations"
  else if jsIncludes sectionName "scene" then some "scenes"
  else none

/-- One step of the `parseProduction` block walk. -/
def parseStep (st : ParseState) (b : Block) : ParseState :=
  match b with
  | .heading1 md => { st with currentSection := sectionOf md }
  | .heading2 md =>
    if jsIncludes (jsToLower md) "location" then
      let idx := st.locationIndex + 1
      { st with
        locationIndex := idx
        production :=
          { st.production with
            locations :=
              st.production.locations ++ [{ index := idx, tableId := none, data := [], gemData := [] }] }
        currentLocation := some st.production.locations.length }
    else st
  | .table id rows =>
    match st.currentSection with
    | some sec =>
      if sec = "crew" then
        { st with production := { st.production with crew := parseDataTable rows } }
      else if sec = "cast" then
        { st with production := { st.production with cast := parseDataTable rows } }
      else if sec = "scenes" then
        { st with production := { st.production with scenes := parseDataTable rows } }
      else if sec = "locations" then
        match st.currentLocation with
        | some li =>
          { st with
            production :=
              { st.production with
                locations :=
                  updateAt st.production.locations li
                    (fun loc => routeLocationData { loc with tableId := some id } (parseKeyValueTable rows)) } }
        | none => st
      else st
    | none => st
  | .other => st

/-- Parser `parseProduction(item)` : fold the block walk over the item's content. -/
def parseProduction (item : Item) : Production :=
  let base : Production :=
    { id := item.id
      title :=
        match item.productionTitle with
        | some t => if t = "" then item.title else t
        | none => item.title
      properties := item.properties
      crew := []
      cast := []
      locations := []
      scenes := [] }
  (item.content.foldl parseStep
      { production := base, currentSection := none, currentLocation := none, locationIndex := 0 }).production

/-! ## AccessGate (routes file: `sanitizeProduction`, `findUserByPhone`,
the authenticate handler) -/

/-- Drop the `Phone`/`phone` properties from one crew/cast record
(the `{ Phone, phone, ...rest }` destructuring). -/
def stripPhone (m : StrMap) : StrMap :=
  mapErase (mapErase m "Phone") "phone"

/-- Redactor `sanitizeProduction` : deep copy with phone numbers removed from every
crew and cast record; everything else (properties included) passes through. -/
def sanitizeProduction (p : Production) : Production :=
  { p with crew := p.crew.map stripPhone, cast := p.cast.map stripPhone }

/-- The shape returned by `findUserByPhone` for a match. -/
inductive UserInfo where
  | crew (name : Option String) (role : Option String) (callTime : Option String)
  | cast (name : Option String) (character : Option String) (callTime : Option String)
deriving DecidableEq, Repr

/-- Matcher `findUserByPhone` : normalize the caller's phone; an empty normalized
phone never matches; otherwise scan crew then cast for the first member
whose normalized `Phone` field equals it. -/
def findUserByPhone (p : Production) (phone : Option String) : Option UserInfo :=
  let normalizedPhone := normalizePhone phone
  if normalizedPhone = "" then none
  else
    match p.crew.find? (fun m => normalizePhone (strLookup m "Phone") == normalizedPhone) with
    | some m => some (.crew (strLookup m "Name") (strLookup m "Role") (strLookup m "Call Time"))
    | none =>
      match p.cast.find? (fun m => normalizePhone (strLookup m "Phone") == normalizedPhone) with
      | some m => some (.cast (strLookup m "Name") (strLookup m "Character") (strLookup m "Call Time"))
      | none => none

/-- The JSON body produced by `POST /production/:id/authenticate` on the
success path. -/
structure AuthResult where
  authenticated : Bool
  userInfo : Option UserInfo
  production : Production
  isClosedSet : Bool
deriving DecidableEq, Repr

/-- The authenticate handler's response: `badRequest` is the early
`400 Phone number required` reply. -/
inductive AuthResponse where
  | badRequest
  | success (r : AuthResult)
deriving DecidableEq, Repr

/-- Model of `production.properties?.closed_set === true`. -/
def closedSetFlag (p : Production) : Bool :=
  plookup p.properties "closed_set" == some (.jbool true)

/-- The authenticate handler after the production has been fetched:
no match returns the sanitized production with `isClosedSet` forced
`false`; a match returns the full production and the real flag. -/
def authenticate (p : Production) (phone : String) : AuthResult :=
  match findUserByPhone p (some phone) with
  | none =>
    { authenticated := false, userInfo := none, production := sanitizeProduction p, isClosedSet := false }
  | some u =>
    { authenticated := true, userInfo := some u, production := p, isClosedSet := closedSetFlag p }

/-- The full `POST /production/:id/authenticate` handler on a fetched
production: a falsy `phone` in the body (absent or the empty string) is the
400 reply. -/
def authHandler (p : Production) (phone : Option String) : AuthResponse :=
  match phone with
  | none => .badRequest
  | some s => if s = "" then .badRequest else .success (authenticate p s)

/-! ## EnrichmentMerger (`enrichProduction`, geminiService.js)

The knowledge-service round trip is modelled by a `GeminiReply` parameter:
`failed` covers a throwing `generateContent` call and a reply whose text is
not valid JSON (both land in the same `catch`); `notArray` is a JSON reply
that is not an array; `results` is a JSON array whose elements are objects
with string-valued fields. -/

/-- One element of the knowledge-service reply array: an object of
string-valued fields (an absent key models a missing field). -/
abbrev EnrichedData := StrMap

/-- The knowledge-service reply, post JSON decoding. -/
inductive GeminiReply where
  | failed
  | notArray
  | results (rs : List EnrichedData)
deriving DecidableEq, Repr

/-- Read of `location.data['Location Address']`. -/
def locAddress (loc : Location) : Option String :=
  strLookup loc.data "Location Address"

/-- A location passes the filter of the collection loop:
`needsEnrichment(location.gemData)` and a truthy address. -/
def eligLoc (loc : Location) : Bool :=
  needsEnrichment loc.gemData &&
    (match locAddress loc with
     | some a => a != ""
     | none => false)

/-- Model of `i < locations.length - 1 ? locations[i+1]?.data['Location Address'] : null`. -/
def nextAddress (locations : List Location) (i : Nat) : Option String :=
  match locations.get? (i + 1) with
  | some l2 => locAddress l2
  | none => none

/-- The collection loop of `enrichProduction`: for each global index `i`
whose location needs enrichment and has a truthy address, record
`(i, address, nextAddress)` in index order. -/
def eligibleEntries (locations : List Location) : List (Nat × String × Option String) :=
  (List.range locations.length).filterMap
    (fun i =>
      match locations.get? i with
      | some loc =>
        if needsEnrichment loc.gemData then
          match locAddress loc with
          | some a => if a = "" then none else some (i, a, nextAddress locations i)
          | none => none
        else none
      | none => none)

/-- Model of `production.properties.date_of_shoot || <today ISO date>`; the
impure "today" default is a parameter. -/
def shootDateStr (p : Production) (today : String) : String :=
  match plookup p.properties "date_of_shoot" with
  | some (.jstr s) => if s = "" then today else s
  | _ => today

/-- Read of `enrichedData.<k> || ''`. -/
def fieldOrEmpty (e : EnrichedData) (k : String) : String :=
  match strLookup e k with
  | some s => s
  | none => ""

/-- Read of `enrichedData.transportDesc || 'N/A'`. -/
def fieldOrNA (e : EnrichedData) (k : String) : String :=
  match strLookup e k with
  | some s => if s = "" then "N/A" else s
  | none => "N/A"

/-- The full ten-field `gemData` replacement built from one reply element. -/
def mergeGem (e : EnrichedData) : StrMap :=
  [ ("GEMnearestHospital", fieldOrEmpty e "nearestHospital")
  , ("GEMnearestFireStation", fieldOrEmpty e "nearestFireStation")
  , ("GEMnearestPoliceStation", fieldOrEmpty e "nearestPoliceStation")
  , ("GEMnearestEmergencyAfterHours", fieldOrEmpty e "nearestEmergencyAfterHours")
  , ("GEMsunriseTime", fieldOrEmpty e "sunriseTime")
  , ("GEMsunsetTime", fieldOrEmpty e "sunsetTime")
  , ("GEMweatherTemp", fieldOrEmpty e "weatherTemp")
  , ("GEMweatherDesc", fieldOrEmpty e "weatherDesc")
  , ("GEMpublicTransportInfo", fieldOrEmpty e "publicTransportInfo")
  , ("GEMtransportDesc", fieldOrNA e "transportDesc") ]

/-- Which reply element (if any) lands on global location index `i`: the
apply loop runs `j` below both list lengths and writes `rs[j]` to the
location at `entries[j].index`; entry indices are distinct, so this is the
pointwise effect of the loop. -/
def assignOf (entries : List (Nat × String × Option String)) (rs : List EnrichedData)
    (i : Nat) : Option EnrichedData :=
  ((entries.zip rs).find? (fun pr => pr.1.1 == i)).map (fun pr => pr.2)

/-- Apply an assignment of reply elements pointwise along the location
list, replacing the whole `gemData` of each assigned location. -/
def applyGem (assign : Nat → Option EnrichedData) : Nat → List Location → List Location
  | _, [] => []
  | i, loc :: rest =>
    (match assign i with
     | some e => { loc with gemData := mergeGem e }
     | none => loc) :: applyGem assign (i + 1) rest

/-- The single consolidated knowledge-service request: all eligible
locations' (address, nextAddress) pairs plus the shoot date string. -/
structure EnrichReq where
  pairs : List (String × Option String)
  dateStr : String
deriving DecidableEq, Repr

/-- The Craft write-backs performed by the apply loop: for each applied
reply element whose location has a `tableId`, one
`updateLocationWithGemData(tableId, enrichedData)` call. -/
def writebackList (locations : List Location)
    (entries : List (Nat × String × Option String)) (rs : List EnrichedData) :
    List (String × EnrichedData) :=
  (entries.zip rs).filterMap
    (fun pr =>
      match locations.get? pr.1.1 with
      | some loc =>
        match loc.tableId with
        | some tid => some (tid, pr.2)
        | none => none
      | none => none)

/-- The observable outcome of one `enrichProduction` run: the returned
production, the knowledge-service calls issued (in order), and the table
write-backs issued. -/
structure EnrichOutcome where
  production : Production
  calls : List EnrichReq
  writebacks : List (String × EnrichedData)
deriving DecidableEq, Repr

/-- The request `enrichProduction` builds when at least one location is
eligible. -/
def requestOf (p : Production) (today : String) : EnrichReq :=
  { pairs := (eligibleEntries p.locations).map (fun t => (t.2.1, t.2.2))
    dateStr := shootDateStr p today }

/-- Pipeline `enrichProduction(production)` (the consolidated single-call version):
`configured = false` models `initGemini()` returning `null`.  With no
eligible location the production is returned untouched and no call is
issued; otherwise exactly one consolidated call is issued, and the reply —
if it is an array — is applied index-aligned to the eligible locations,
truncated to whichever list is shorter. -/
def enrichProduction (configured : Bool) (today : String) (reply : GeminiReply)
    (p : Production) : EnrichOutcome :=
  if !configured then { production := p, calls := [], writebacks := [] }
  else
    let entries := eligibleEntries p.locations
    if entries.isEmpty then { production := p, calls := [], writebacks := [] }
    else
      let req := requestOf p today
      match reply with
      | .failed => { production := p, calls := [req], writebacks := [] }
      | .notArray => { production := p, calls := [req], writebacks := [] }
      | .results rs =>
        { production :=
            { p with locations := applyGem (assignOf entries rs) 0 p.locations }
          calls := [req]
          writebacks := writebackList p.locations entries rs }

/-! ## General list lemmas used by the proofs -/

theorem filterMap_if_eq_map_filter {α β : Type} (p : α → Bool) (f : α → β) :
    ∀ l : List α,
      l.filterMap (fun x => if p x then some (f x) else none) = (l.filter p).map f := by
  intro l
  induction l with
  | nil => simp
  | cons a l ih =>
    by_cases h : p a <;> simp [List.filterMap_cons, List.filter_cons, h, ih]

theorem zip_get? {α β : Type} :
    ∀ (l1 : List α) (l2 : List β) (n : Nat),
      (l1.zip l2).get? n =
        match l1.get? n, l2.get? n with
        | some a, some b => some (a, b)
        | _, _ => none := by
  intro l1
  induction l1 with
  | nil => intro l2 n; simp
  | cons a l1 ih =>
    intro l2 n
    cases l2 with
    | nil => simp
    | cons b l2 =>
      cases n with
      | zero => simp [List.zip_cons_cons]
      | succ n => simpa [List.zip_cons_cons] using ih l2 n

theorem pairwise_fst_lt_filterMap {α : Type} (g : α → Nat) (f : Nat → Option α)
    (hf : ∀ i x, f i = some x → g x = i) :
    ∀ l : List Nat, l.Pairwise (· < ·) → (l.filterMap f).Pairwise (fun a b => g a < g b) := by
  intro l
  induction l with
  | nil => intro _; simp
  | cons a l ih =>
    intro hpw
    rw [List.pairwise_cons] at hpw
    rw [List.filterMap_cons]
    cases hfa : f a with
    | none => exact ih hpw.2
    | some x =>
      rw [List.pairwise_cons]
      refine ⟨?_, ih hpw.2⟩
      intro y hy
      rw [List.mem_filterMap] at hy
      obtain ⟨b, hb, hfb⟩ := hy
      rw [hf a x hfa, hf b y hfb]
      exact hpw.1 b hb

theorem pairwise_fst_get?_ne {β : Type} (l : List (Nat × β))
    (hpw : l.Pairwise (fun a b => a.1 < b.1)) {j1 j2 : Nat} {x y : Nat × β}
    (h1 : l.get? j1 = some x) (h2 : l.get? j2 = some y) (hne : j1 ≠ j2) : x.1 ≠ y.1 := by
  rw [List.pairwise_iff_get] at hpw
  rw [List.get?_eq_some] at h1 h2
  obtain ⟨hl1, hg1⟩ := h1
  obtain ⟨hl2, hg2⟩ := h2
  rcases Nat.lt_or_ge j1 j2 with h | h
  · have := hpw ⟨j1, hl1⟩ ⟨j2, hl2⟩ h
    rw [hg1, hg2] at this
    exact Nat.ne_of_lt this
  · have hlt : j2 < j1 := Nat.lt_of_lt_of_le (Nat.lt_of_le_of_ne h (fun hh => hne hh.symm)) (Nat.le_refl _)
    have := hpw ⟨j2, hl2⟩ ⟨j1, hl1⟩ hlt
    rw [hg1, hg2] at this
    exact (Nat.ne_of_lt this).symm

theorem find?_zip_at {β γ : Type} [DecidableEq γ] :
    ∀ (entries : List (Nat × β)) (rs : List γ) (j : Nat) (t : Nat × β) (e : γ),
      entries.Pairwise (fun a b => a.1 < b.1) →
      entries.get? j = some t → rs.get? j = some e →
      (entries.zip rs).find? (fun pr => pr.1.1 == t.1) = some (t, e) := by
  intro entries
  induction entries with
  | nil => intro rs j t e _ h1 _; simp at h1
  | cons t0 ents ih =>
    intro rs j t e hpw h1 h2
    cases rs with
    | nil => simp at h2
    | cons e0 rs' =>
      rw [List.pairwise_cons] at hpw
      cases j with
      | zero =>
        simp only [List.get?] at h1 h2
        injection h1 with h1
        injection h2 with h2
        subst h1; subst h2
        simp [List.zip_cons_cons, List.find?]
      | succ j' =>
        simp only [List.get?] at h1 h2
        have htmem : t ∈ ents := List.get?_mem h1
        have hne : t0.1 ≠ t.1 := Nat.ne_of_lt (hpw.1 t htmem)
        rw [List.zip_cons_cons, List.find?]
        have : (t0.1 == t.1) = false := beq_false_of_ne hne
        rw [this]
        exact ih rs' j' t e hpw.2 h1 h2

/-! ## Lemmas about the enrichment pipeline -/

/-- The body of the collection loop, named for reuse in proofs. -/
def entryAt (locations : List Location) (i : Nat) : Option (Nat × String × Option String) :=
  match locations.get? i with
  | some loc =>
    if needsEnrichment loc.gemData then
      match locAddress loc with
      | some a => if a = "" then none else some (i, a, nextAddress locations i)
      | none => none
    else none
  | none => none

theorem eligibleEntries_eq (locations : List Location) :
    eligibleEntries locations = (List.range locations.length).filterMap (entryAt locations) := by
  rfl

theorem entryAt_fst (locations : List Location) (i : Nat) (t : Nat × String × Option String)
    (h : entryAt locations i = some t) : t.1 = i := by
  unfold entryAt at h
  split at h
  · split at h
    · split at h
      · split at h
        · simp at h
        · injection h with h
          rw [← h]
      · simp at h
    · simp at h
  · simp at h

theorem entryAt_eq_some_iff (locations : List Location) (i : Nat)
    (t : Nat × String × Option String) :
    entryAt locations i = some t ↔
      ∃ loc, locations.get? i = some loc ∧ needsEnrichment loc.gemData = true ∧
        locAddress loc = some t.2.1 ∧ t.2.1 ≠ "" ∧ t.1 = i ∧
        t.2.2 = nextAddress locations i := by
  obtain ⟨t1, t2, t3⟩ := t
  constructor
  · intro h
    unfold entryAt at h
    split at h
    next loc heq =>
      split at h
      next hn =>
        split at h
        next a ha =>
          split at h
          next he => simp at h
          next he =>
            injection h with h
            rw [← h]
            exact ⟨loc, heq, hn, ha, he, rfl, rfl⟩
        next ha => simp at h
      next hn => simp at h
    next heq => simp at h
  · rintro ⟨loc, hg, hn, ha, hne, h1, h3⟩
    simp only at ha hne h1 h3
    subst h1
    subst h3
    unfold entryAt
    rw [hg]
    simp [hn, ha, hne]

theorem entryAt_eq_none_iff (locations : List Location) (i : Nat) (loc : Location)
    (hg : locations.get? i = some loc) :
    entryAt locations i = none ↔ eligLoc loc = false := by
  unfold entryAt eligLoc
  rw [hg]
  cases ha : locAddress loc with
  | none =>
    by_cases hn : needsEnrichment loc.gemData <;> simp [hn, ha]
  | some a =>
    by_cases hn : needsEnrichment loc.gemData
    · by_cases he : a = "" <;> simp [hn, ha, he]
    · simp [hn, ha]

theorem mem_eligibleEntries (locations : List Location) (t : Nat × String × Option String) :
    t ∈ eligibleEntries locations ↔
      ∃ loc, locations.get? t.1 = some loc ∧ needsEnrichment loc.gemData = true ∧
        locAddress loc = some t.2.1 ∧ t.2.1 ≠ "" ∧ t.2.2 = nextAddress locations t.1 := by
  rw [eligibleEntries_eq, List.mem_filterMap]
  constructor
  · rintro ⟨i, _, hfi⟩
    have hfst := entryAt_fst locations i t hfi
    subst hfst
    rw [entryAt_eq_some_iff] at hfi
    obtain ⟨loc, hg, hn, ha, hne, _, ht⟩ := hfi
    exact ⟨loc, hg, hn, ha, hne, ht⟩
  · rintro ⟨loc, hg, hn, ha, hne, hna⟩
    have hlt : t.1 < locations.length := (List.get?_eq_some.mp hg).1
    refine ⟨t.1, List.mem_range.mpr hlt, ?_⟩
    rw [entryAt_eq_some_iff]
    exact ⟨loc, hg, hn, ha, hne, rfl, hna⟩

theorem eligibleEntries_pairwise (locations : List Location) :
    (eligibleEntries locations).Pairwise (fun a b => a.1 < b.1) := by
  rw [eligibleEntries_eq]
  exact pairwise_fst_lt_filterMap (fun t => t.1) (entryAt locations)
    (entryAt_fst locations) (List.range locations.length) (List.pairwise_lt_range _)

theorem eligibleEntries_eq_nil_iff (locations : List Location) :
    eligibleEntries locations = [] ↔
      ∀ i loc, locations.get? i = some loc → eligLoc loc = false := by
  rw [eligibleEntries_eq, List.filterMap_eq_nil_iff]
  constructor
  · intro h i loc hg
    have hlt : i < locations.length := (List.get?_eq_some.mp hg).1
    exact (entryAt_eq_none_iff locations i loc hg).mp (h i (List.mem_range.mpr hlt))
  · intro h i hi
    cases hg : locations.get? i with
    | none => unfold entryAt; rw [hg]
    | some loc => exact (entryAt_eq_none_iff locations i loc hg).mpr (h i loc hg)

theorem assignOf_eq_some_of_get? (entries : List (Nat × String × Option String))
    (rs : List EnrichedData) (j : Nat) (t : Nat × String × Option String) (e : EnrichedData)
    (hpw : entries.Pairwise (fun a b => a.1 < b.1))
    (h1 : entries.get? j = some t) (h2 : rs.get? j = some e) :
    assignOf entries rs t.1 = some e := by
  unfold assignOf
  rw [find?_zip_at entries rs j t e hpw h1 h2]
  rfl

theorem assignOf_eq_none_of_short (entries : List (Nat × String × Option String))
    (rs : List EnrichedData) (j : Nat) (t : Nat × String × Option String)
    (hpw : entries.Pairwise (fun a b => a.1 < b.1))
    (h1 : entries.get? j = some t) (hlen : rs.length ≤ j) :
    assignOf entries rs t.1 = none := by
  unfold assignOf
  rw [List.find?_eq_none.mpr, Option.map_none']
  intro pr hpr
  rw [List.mem_iff_get?] at hpr
  obtain ⟨n, hn⟩ := hpr
  rw [zip_get?] at hn
  cases he : entries.get? n with
  | none => rw [he] at hn; simp at hn
  | some t2 =>
    cases hr : rs.get? n with
    | none => rw [he, hr] at hn; simp at hn
    | some e2 =>
      rw [he, hr] at hn
      injection hn with hn
      have hnlen : n < rs.length := (List.get?_eq_some.mp hr).1
      have hne : n ≠ j := Nat.ne_of_lt (Nat.lt_of_lt_of_le hnlen hlen)
      have := pairwise_fst_get?_ne entries hpw he h1 hne
      subst hn
      simpa using this

theorem assignOf_mem (entries : List (Nat × String × Option String))
    (rs : List EnrichedData) (i : Nat) (e : EnrichedData)
    (h : assignOf entries rs i = some e) : e ∈ rs := by
  unfold assignOf at h
  cases hf : (entries.zip rs).find? (fun pr => pr.1.1 == i) with
  | none => rw [hf] at h; simp at h
  | some pr =>
    rw [hf] at h
    injection h with h
    have hmem := List.mem_of_find?_eq_some hf
    rw [List.mem_iff_get?] at hmem
    obtain ⟨n, hn⟩ := hmem
    rw [zip_get?] at hn
    cases he : entries.get? n with
    | none => rw [he] at hn; simp at hn
    | some t2 =>
      cases hr : rs.get? n with
      | none => rw [he, hr] at hn; simp at hn
      | some e2 =>
        rw [he, hr] at hn
        injection hn with hn
        have : pr.2 = e2 := by rw [← hn]
        simp only at h
        rw [← h, this]
        exact List.get?_mem hr

theorem assignOf_exists_entry (entries : List (Nat × String × Option String))
    (rs : List EnrichedData) (i : Nat) (e : EnrichedData)
    (h : assignOf entries rs i = some e) : ∃ t ∈ entries, t.1 = i := by
  unfold assignOf at h
  cases hf : (entries.zip rs).find? (fun pr => pr.1.1 == i) with
  | none => rw [hf] at h; simp at h
  | some pr =>
    have hp := List.find?_some hf
    have hmem := List.mem_of_find?_eq_some hf
    rw [List.mem_iff_get?] at hmem
    obtain ⟨n, hn⟩ := hmem
    rw [zip_get?] at hn
    cases he : entries.get? n with
    | none => rw [he] at hn; simp at hn
    | some t2 =>
      cases hr : rs.get? n with
      | none => rw [he, hr] at hn; simp at hn
      | some e2 =>
        rw [he, hr] at hn
        injection hn with hn
        refine ⟨t2, List.get?_mem he, ?_⟩
        have : pr.1 = t2 := by rw [← hn]
        rw [← this]
        simpa using hp

theorem applyGem_get? (assign : Nat → Option EnrichedData) :
    ∀ (l : List Location) (n k : Nat),
      (applyGem assign n l).get? k =
        (l.get? k).map
          (fun loc =>
            match assign (n + k) with
            | some e => { loc with gemData := mergeGem e }
            | none => loc) := by
  intro l
  induction l with
  | nil => intro n k; simp [applyGem]
  | cons loc rest ih =>
    intro n k
    cases k with
    | zero => simp [applyGem]
    | succ k' =>
      have := ih (n + 1) k'
      simp only [applyGem, List.get?]
      rw [this]
      have harith : n + 1 + k' = n + (k' + 1) := by omega
      rw [harith]

/-! ## C6 — the `needsEnrichment` predicate -/

theorem blankField_eq_true_iff (g : StrMap) (f : String) :
    blankField g f = true ↔
      strLookup g f = none ∨ ∃ s, strLookup g f = some s ∧ jsTrim s = "" := by
  unfold blankField
  cases h : strLookup g f with
  | none => simp
  | some s => simp [beq_iff_eq]

theorem blankField_eq_false_iff (g : StrMap) (f : String) :
    blankField g f = false ↔ ∃ s, strLookup g f = some s ∧ jsTrim s ≠ "" := by
  unfold blankField
  cases h : strLookup g f with
  | none => simp
  | some s => simp [beq_iff_eq]

/-- C6: `needsEnrichment(gemData)` returns true iff at least one of the ten
fixed GEM field names is absent from the map or maps to a string that is
empty or whitespace-only after trimming, and returns false exactly when all
ten are present and non-blank. -/
theorem needsEnrichment_iff_missing_or_blank (g : StrMap) :
    (needsEnrichment g = true ↔
      ∃ f ∈ requiredFields,
        strLookup g f = none ∨ ∃ s, strLookup g f = some s ∧ jsTrim s = "") ∧
    (needsEnrichment g = false ↔
      ∀ f ∈ requiredFields, ∃ s, strLookup g f = some s ∧ jsTrim s ≠ "") := by
  constructor
  · unfold needsEnrichment
    rw [List.any_eq_true]
    constructor
    · rintro ⟨f, hf, hb⟩
      exact ⟨f, hf, (blankField_eq_true_iff g f).mp hb⟩
    · rintro ⟨f, hf, hb⟩
      exact ⟨f, hf, (blankField_eq_true_iff g f).mpr hb⟩
  · unfold needsEnrichment
    rw [List.any_eq_false]
    constructor
    · intro h f hf
      exact (blankField_eq_false_iff g f).mp (Bool.eq_false_iff.mpr (h f hf))
    · intro h f hf
      exact Bool.eq_false_iff.mp ((blankField_eq_false_iff g f).mpr (h f hf))

/-! ## C9 — digit-free phones never authenticate -/

/-- C9: for every production, `findUserByPhone` returns null whenever the
caller's phone normalizes to the empty string (no digits, or absent), even
when some crew or cast member's own `Phone` field is missing or normalizes
to the empty string. -/
theorem findUserByPhone_requires_digits (p : Production) (phone : Option String)
    (h : normalizePhone phone = "") : findUserByPhone p phone = none := by
  unfold findUserByPhone
  simp [h]

/-- A production whose crew has a member with no `Phone` field at all and
whose cast has a member whose `Phone` normalizes to the empty string. -/
def blankPhoneProd : Production :=
  { id := "p9"
    title := "Demo"
    properties := []
    crew := [[("Name", "Gaffer")]]
    cast := [[("Name", "Lead"), ("Phone", " - ")]]
    locations := []
    scenes := [] }

theorem findUserByPhone_requires_digits_witness :
    normalizePhone (some "no digits here!") = "" ∧
    findUserByPhone blankPhoneProd (some "no digits here!") = none :=
  ⟨by decide, findUserByPhone_requires_digits blankPhoneProd (some "no digits here!") (by decide)⟩

/-! ## C2 — the unauthenticated `authenticate` outcome -/

/-- A production with `closed_set = true` and one crew member. -/
def closedSetProd : Production :=
  { id := "p2"
    title := "Closed Film"
    properties := [("closed_set", JVal.jbool true)]
    crew := [[("Name", "Alice"), ("Phone", "0412 345 678"), ("Role", "Director")]]
    cast := []
    locations := []
    scenes := [] }

/-- The same production with the closed-set flag turned off — they differ
only in that flag. -/
def openSetProd : Production :=
  { closedSetProd with properties := [("closed_set", JVal.jbool false)] }

/-- C2 counterexample: for a phone matching nobody, the two authenticate
responses for productions differing only in the closed-set flag are NOT
identical — the sanitized production inside the response still carries
`properties.closed_set`, so closed-set status is revealed to the
unauthenticated caller even though the `isClosedSet` field is forced
`false`. -/
theorem authenticate_closed_set_in_properties_cex :
    findUserByPhone closedSetProd (some "555") = none ∧
    findUserByPhone openSetProd (some "555") = none ∧
    plookup closedSetProd.properties "closed_set" = some (JVal.jbool true) ∧
    openSetProd = { closedSetProd with properties := [("closed_set", JVal.jbool false)] } ∧
    (authenticate closedSetProd "555").isClosedSet = false ∧
    (authenticate openSetProd "555").isClosedSet = false ∧
    authHandler closedSetProd (some "555") ≠ authHandler openSetProd (some "555") := by
  refine ⟨by decide, by decide, by decide, by decide, by decide, by decide, by decide⟩

/-- C2 amended: for a non-empty phone matching no crew or cast member the
handler returns `authenticated:false`, a null `userInfo`, the sanitized
production and `isClosedSet:false` even when `closed_set === true`; the
`authenticated`, `userInfo` and `isClosedSet` components are identical
across productions the phone does not match, but the sanitized production
still carries `properties.closed_set`, so the full response is not
identical for two productions differing only in that flag. -/
theorem authenticate_no_match_contract (p : Production) (phone : String)
    (hp : phone ≠ "") (hnm : findUserByPhone p (some phone) = none) :
    authHandler p (some phone) =
      .success
        { authenticated := false
          userInfo := none
          production := sanitizeProduction p
          isClosedSet := false } ∧
    ∀ q : Production, findUserByPhone q (some phone) = none →
      (authenticate p phone).authenticated = (authenticate q phone).authenticated ∧
      (authenticate p phone).userInfo = (authenticate q phone).userInfo ∧
      (authenticate p phone).isClosedSet = (authenticate q phone).isClosedSet := by
  constructor
  · have h1 : authHandler p (some phone) = AuthResponse.success (authenticate p phone) := by
      unfold authHandler
      simp [hp]
    rw [h1]
    unfold authenticate
    rw [hnm]
  · intro q hq
    unfold authenticate
    rw [hnm, hq]
    exact ⟨rfl, rfl, rfl⟩

theorem authenticate_no_match_contract_witness :
    authHandler closedSetProd (some "555") =
      .success
        { authenticated := false
          userInfo := none
          production := sanitizeProduction closedSetProd
          isClosedSet := false } :=
  (authenticate_no_match_contract closedSetProd "555" (by decide) (by decide)).1

/-! ## C7 / C10 — `parseDataTable` -/

theorem rowRecordAux_lookup_not_mem (row : Row) :
    ∀ (hs : List String) (j : Nat) (m : StrMap) (k : String), k ∉ hs →
      strLookup (rowRecordAux row j hs m) k = strLookup m k := by
  intro hs
  induction hs with
  | nil => intro j m k _; rfl
  | cons h hs ih =>
    intro j m k hk
    rw [List.mem_cons] at hk
    push_neg at hk
    rw [rowRecordAux, ih (j + 1) _ k hk.2, strLookup_mapInsert_ne _ _ _ _ (fun hh => hk.1 hh.symm)]

theorem rowRecordAux_lookup_pos (row : Row) :
    ∀ (hs : List String) (j : Nat) (m : StrMap) (k : Nat) (hk : String),
      hs.get? k = some hk → hs.Nodup →
      strLookup (rowRecordAux row j hs m) hk = some (cellAt row (j + k)) := by
  intro hs
  induction hs with
  | nil => intro j m k hk h _; simp at h
  | cons h0 hs ih =>
    intro j m k hk hget hnd
    rw [List.nodup_cons] at hnd
    cases k with
    | zero =>
      simp only [List.get?] at hget
      injection hget with hget
      subst hget
      rw [rowRecordAux, rowRecordAux_lookup_not_mem row hs (j + 1) _ h0 hnd.1,
        strLookup_mapInsert_self]
      rfl
    | succ k' =>
      simp only [List.get?] at hget
      rw [rowRecordAux, ih (j + 1) _ k' hk hget hnd.2]
      have : j + 1 + k' = j + (k' + 1) := by omega
      rw [this]

/-- C7: for a table with a header row and data rows, `parseDataTable`
returns exactly the data rows having at least one non-empty (trimmed) cell
under a header position, in order, each turned into a record; and (for
duplicate-free headers) the record maps the header at position `j` to the
row's trimmed cell `j`, the empty string when the row is short. -/
theorem parseDataTable_record_spec (hr : Row) (rs : List Row) :
    parseDataTable (hr :: rs) =
      (rs.filter (rowHasData (hr.map cellText))).map (rowRecord (hr.map cellText)) ∧
    ∀ (headers : List String) (row : Row) (j : Nat) (hlt : j < headers.length),
      headers.Nodup →
      strLookup (rowRecord headers row) (headers.get ⟨j, hlt⟩) = some (cellAt row j) := by
  constructor
  · cases rs with
    | nil => rfl
    | cons r rs' =>
      simp only [parseDataTable]
      rw [if_neg (by simp)]
      exact filterMap_if_eq_map_filter (rowHasData (hr.map cellText))
        (rowRecord (hr.map cellText)) (r :: rs')
  · intro headers row j hlt hnd
    have hget : headers.get? j = some (headers.get ⟨j, hlt⟩) := List.get?_eq_get hlt
    have := rowRecordAux_lookup_pos row headers 0 [] j (headers.get ⟨j, hlt⟩) hget hnd
    rw [rowRecord, this, Nat.zero_add]

/-- A two-column table whose data row is kept, evaluated through C7's
characterization. -/
theorem parseDataTable_record_spec_witness :
    parseDataTable [[some "Name", some "Phone"], [some " Alice ", none]] =
      [rowRecord ["Name", "Phone"] [some " Alice ", none]] ∧
    strLookup (rowRecord ["Name", "Phone"] [some " Alice ", none]) "Phone" = some "" := by
  constructor
  · rw [(parseDataTable_record_spec [some "Name", some "Phone"] [[some " Alice ", none]]).1]
    decide
  · have h :=
      (parseDataTable_record_spec [some "Name", some "Phone"] []).2 ["Name", "Phone"]
        [some " Alice ", none] 1 (by decide) (by decide)
    simpa using h

/-- C10: `parseDataTable` reads at most the first `H` cells of each data
row, where `H` is the header count: a data row whose first `H` trimmed
cells are all empty is dropped entirely (cells past the header length never
appear in a record and never count toward the keep rule). -/
theorem parseDataTable_ignores_cells_beyond_headers (hr : Row) (rs1 rs2 : List Row) (row : Row)
    (hblank : ∀ j < (hr.map cellText).length, cellAt row j = "") :
    parseDataTable (hr :: (rs1 ++ row :: rs2)) = parseDataTable (hr :: (rs1 ++ rs2)) := by
  have hnot : rowHasData (hr.map cellText) row = false := by
    rw [rowHasData, List.any_eq_false]
    intro j hj
    rw [List.mem_range] at hj
    simp [hblank j hj]
  have hmain :
      ∀ l : List Row,
        l.filterMap
          (fun r => if rowHasData (hr.map cellText) r then some (rowRecord (hr.map cellText) r) else none) =
          (l.filter (rowHasData (hr.map cellText))).map (rowRecord (hr.map cellText)) :=
    filterMap_if_eq_map_filter _ _
  cases h12 : rs1 ++ rs2 with
  | nil =>
    obtain ⟨h1, h2⟩ := List.append_eq_nil.mp h12
    subst h1
    subst h2
    simp only [parseDataTable, List.nil_append]
    rw [if_neg (by simp), if_pos (by simp)]
    simp [hnot]
  | cons r0 rest =>
    simp only [parseDataTable]
    rw [if_neg (by simp), if_neg (by simp [h12])]
    rw [hmain, hmain, ← h12, List.filter_append, List.filter_append, List.filter_cons, hnot]
    simp

theorem parseDataTable_ignores_cells_beyond_headers_witness :
    parseDataTable [[some "H"], [some "", some "x"]] = parseDataTable [[some "H"]] :=
  parseDataTable_ignores_cells_beyond_headers [some "H"] [] [] [some "", some "x"] (by decide)

/-! ## C5 — level-2 headings and location allocation -/

/-- A block that allocates a location: a level-2 heading whose lowercased
markdown contains `"location"`. -/
def isLocHeading (b : Block) : Bool :=
  match b with
  | .heading2 md => jsIncludes (jsToLower md) "location"
  | _ => false

theorem routeLocationData_index (kv : StrMap) :
    ∀ loc : Location, (routeLocationData loc kv).index = loc.index := by
  induction kv with
  | nil => intro loc; rfl
  | cons p kv ih =>
    intro loc
    rw [routeLocationData, ih]
    split <;> rfl

theorem updateAt_map_index (f : Location → Location) (hf : ∀ l, (f l).index = l.index) :
    ∀ (locs : List Location) (i : Nat),
      (updateAt locs i f).map Location.index = locs.map Location.index := by
  intro locs
  induction locs with
  | nil => intro i; rfl
  | cons l rest ih =>
    intro i
    cases i with
    | zero => simp [updateAt, hf]
    | succ n => simp [updateAt, ih]

theorem parseStep_invariant (st : ParseState) (b : Block)
    (h1 : st.production.locations.map Location.index = List.range' 1 st.locationIndex)
    (h2 : st.locationIndex = st.production.locations.length) :
    (parseStep st b).production.locations.map Location.index =
        List.range' 1 (parseStep st b).locationIndex ∧
    (parseStep st b).locationIndex = (parseStep st b).production.locations.length ∧
    (parseStep st b).locationIndex = st.locationIndex + (if isLocHeading b then 1 else 0) := by
  cases b with
  | heading1 md => exact ⟨h1, h2, by simp [parseStep, isLocHeading]⟩
  | heading2 md =>
    by_cases hc : jsIncludes (jsToLower md) "location"
    · have hstep :
          parseStep st (.heading2 md) =
            { st with
              locationIndex := st.locationIndex + 1
              production :=
                { st.production with
                  locations :=
                    st.production.locations ++
                      [{ index := st.locationIndex + 1, tableId := none, data := [], gemData := [] }] }
              currentLocation := some st.production.locations.length } := by
        simp [parseStep, hc]
      rw [hstep]
      refine ⟨?_, ?_, ?_⟩
      · simp only [List.map_append, h1, List.map_cons, List.map_nil]
        rw [List.range'_concat]
        simp [Nat.add_comm]
      · simp [h2]
      · simp [isLocHeading, hc]
    · have hstep : parseStep st (.heading2 md) = st := by
        simp [parseStep, hc]
      rw [hstep]
      exact ⟨h1, h2, by simp [isLocHeading, hc]⟩
  | table id rows =>
    have hcount : (if isLocHeading (Block.table id rows) then 1 else 0) = 0 := by
      simp [isLocHeading]
    rw [hcount]
    cases hs : st.currentSection with
    | none => simp only [parseStep, hs]; exact ⟨h1, h2, by simp⟩
    | some sec =>
      simp only [parseStep, hs]
      by_cases hcrew : sec = "crew"
      · rw [if_pos hcrew]; exact ⟨h1, h2, by simp⟩
      · rw [if_neg hcrew]
        by_cases hcast : sec = "cast"
        · rw [if_pos hcast]; exact ⟨h1, h2, by simp⟩
        · rw [if_neg hcast]
          by_cases hscene : sec = "scenes"
          · rw [if_pos hscene]; exact ⟨h1, h2, by simp⟩
          · rw [if_neg hscene]
            by_cases hloc : sec = "locations"
            · rw [if_pos hloc]
              cases hcl : st.currentLocation with
              | none => exact ⟨h1, h2, by simp⟩
              | some li =>
                have hmap :
                    (updateAt st.production.locations li
                        (fun loc =>
                          routeLocationData { loc with tableId := some id }
                            (parseKeyValueTable rows))).map Location.index =
                      st.production.locations.map Location.index :=
                  updateAt_map_index
                    (fun loc =>
                      routeLocationData { loc with tableId := some id } (parseKeyValueTable rows))
                    (fun l =>
                      routeLocationData_index (parseKeyValueTable rows)
                        { l with tableId := some id })
                    st.production.locations li
                refine ⟨?_, ?_, by simp⟩
                · simpa [hmap] using h1
                · have hlen := congrArg List.length hmap
                  simp only [List.length_map] at hlen
                  simp [hlen, h2]
            · rw [if_neg hloc]; exact ⟨h1, h2, by simp⟩
  | other => exact ⟨h1, h2, by simp [parseStep, isLocHeading]⟩

theorem parseFold_invariant :
    ∀ (bs : List Block) (st : ParseState),
      st.production.locations.map Location.index = List.range' 1 st.locationIndex →
      st.locationIndex = st.production.locations.length →
      (bs.foldl parseStep st).production.locations.map Location.index =
          List.range' 1 ((bs.foldl parseStep st).locationIndex) ∧
        (bs.foldl parseStep st).locationIndex = st.locationIndex + bs.countP isLocHeading := by
  intro bs
  induction bs with
  | nil => intro st h1 _; exact ⟨h1, by simp⟩
  | cons b bs ih =>
    intro st h1 h2
    obtain ⟨g1, g2, g3⟩ := parseStep_invariant st b h1 h2
    obtain ⟨r1, r2⟩ := ih (parseStep st b) g1 g2
    refine ⟨by simpa using r1, ?_⟩
    rw [List.foldl_cons, r2, g3, List.countP_cons]
    by_cases hb : isLocHeading b <;> simp [hb] <;> omega

/-- An item whose only H1 puts the parser in the `crew` section before a
location-named level-2 heading arrives. -/
def crewH2Item : Item :=
  { id := "i5"
    title := "T"
    productionTitle := none
    properties := []
    content := [Block.heading1 "# Crew", Block.heading2 "## Location 1"] }

/-- C5 counterexample: a level-2 heading containing "location" allocates a
new Location even while the current section is `crew` — the H2 branch of
`parseProduction` never consults `currentSection`, so such headings are not
inert outside the locations section. -/
theorem heading2_allocates_in_crew_section_cex :
    sectionOf "# Crew" = some "crew" ∧
    (parseProduction crewH2Item).locations.map Location.index = [1] := by
  refine ⟨by decide, by decide⟩

/-- C5 amended: a level-2 heading whose text contains "location"
(case-insensitive) always allocates a new Location with the next sequential
1-based index and appends it to `production.locations`, regardless of the
current section; a level-2 heading whose text does not contain "location"
leaves the state entirely unchanged.  Consequently the parsed locations'
indices are `1..n` for `n` the number of location-named level-2 headings in
the content. -/
theorem parseProduction_location_allocation (item : Item) :
    (parseProduction item).locations.map Location.index =
      List.range' 1 (item.content.countP isLocHeading) ∧
    ∀ (st : ParseState) (md : String),
      jsIncludes (jsToLower md) "location" = false → parseStep st (.heading2 md) = st := by
  constructor
  · unfold parseProduction
    have h := parseFold_invariant item.content
      { production :=
          { id := item.id
            title :=
              match item.productionTitle with
              | some t => if t = "" then item.title else t
              | none => item.title
            properties := item.properties
            crew := []
            cast := []
            locations := []
            scenes := [] }
        currentSection := none
        currentLocation := none
        locationIndex := 0 } rfl rfl
    rw [h.1, h.2]
    simp
  · intro st md hmd
    simp [parseStep, hmd]

/-- A content walk with two location headings and one inert level-2
heading, evaluated through the amended C5 theorem. -/
def twoLocItem : Item :=
  { id := "i5w"
    title := "T"
    productionTitle := none
    properties := []
    content :=
      [ Block.heading1 "# Locations"
      , Block.heading2 "## Location 1"
      , Block.heading2 "## Notes"
      , Block.heading2 "## Location 2" ] }

/-- A parse state mid-walk, used to witness the inertness half of C5. -/
def crewParseState : ParseState :=
  { production :=
      { id := "w", title := "W", properties := [], crew := [], cast := [], locations := []
        scenes := [] }
    currentSection := some "crew"
    currentLocation := none
    locationIndex := 0 }

theorem parseProduction_location_allocation_witness :
    (parseProduction twoLocItem).locations.map Location.index =
      List.range' 1 (twoLocItem.content.countP isLocHeading) ∧
    parseStep crewParseState (.heading2 "## Notes") = crewParseState :=
  ⟨(parseProduction_location_allocation twoLocItem).1,
    (parseProduction_location_allocation twoLocItem).2 crewParseState "## Notes" (by decide)⟩

/-! ## C1 — one consolidated knowledge-service call -/

/-- C1: whenever the production has at least one eligible location
(`needsEnrichment` true and a non-empty `data["Location Address"]`),
`enrichProduction` issues exactly one knowledge-service call — the single
consolidated request carrying every eligible location's
(address, nextAddress) pair and the shoot date — whatever the reply turns
out to be; it never issues one call per eligible location. -/
theorem enrichProduction_single_batched_call (p : Production) (today : String)
    (reply : GeminiReply)
    (h : ∃ i loc, p.locations.get? i = some loc ∧ eligLoc loc = true) :
    (enrichProduction true today reply p).calls = [requestOf p today] := by
  obtain ⟨i, loc, hget, helig⟩ := h
  have hne : eligibleEntries p.locations ≠ [] := by
    intro hnil
    rw [eligibleEntries_eq_nil_iff] at hnil
    rw [hnil i loc hget] at helig
    exact Bool.false_ne_true helig
  have hempty : (eligibleEntries p.locations).isEmpty = false := by
    rw [List.isEmpty_eq_false]
    exact hne
  unfold enrichProduction
  rw [Bool.not_true, if_neg (by simp)]
  simp only [hempty, Bool.false_eq_true, if_false]
  cases reply <;> rfl

/-- A production with one enrichable location (all GEM fields absent, a
non-empty address). -/
def singleLocProd : Production :=
  { id := "p1"
    title := "Demo Day 1"
    properties := [("date_of_shoot", JVal.jstr "2024-03-09")]
    crew := []
    cast := []
    locations :=
      [{ index := 1, tableId := none, data := [("Location Address", "12 Harbour St, Sydney")]
         gemData := [] }]
    scenes := [] }

theorem enrichProduction_single_batched_call_witness :
    (enrichProduction true "2024-01-01" GeminiReply.failed singleLocProd).calls =
      [requestOf singleLocProd "2024-01-01"] :=
  enrichProduction_single_batched_call singleLocProd "2024-01-01" GeminiReply.failed
    ⟨0, { index := 1, tableId := none, data := [("Location Address", "12 Harbour St, Sydney")]
          gemData := [] }, by decide⟩

/-! ## C8 — malformed and short replies degrade softly -/

/-- C8: a reply that is not valid JSON (or a throwing call) and a reply
that is valid JSON but not an array both leave every location's `gemData`
exactly as it was (the whole production is returned unchanged, no error);
and when the reply array is shorter than the request list, results are
applied only for the reply indices that are present — an eligible location
whose request position is at or past the reply length keeps its original
state, while positions below the reply length get the full merge. -/
theorem enrichProduction_soft_degradation :
    (∀ (p : Production) (today : String),
      (enrichProduction true today GeminiReply.failed p).production = p) ∧
    (∀ (p : Production) (today : String),
      (enrichProduction true today GeminiReply.notArray p).production = p) ∧
    (∀ (p : Production) (today : String) (rs : List EnrichedData) (j : Nat)
        (t : Nat × String × Option String),
      (eligibleEntries p.locations).get? j = some t → rs.length ≤ j →
      (enrichProduction true today (GeminiReply.results rs) p).production.locations.get? t.1 =
        p.locations.get? t.1) ∧
    (∀ (p : Production) (today : String) (rs : List EnrichedData) (j : Nat)
        (t : Nat × String × Option String) (e : EnrichedData),
      (eligibleEntries p.locations).get? j = some t → rs.get? j = some e →
      (enrichProduction true today (GeminiReply.results rs) p).production.locations.get? t.1 =
        (p.locations.get? t.1).map (fun loc => { loc with gemData := mergeGem e })) := by
  have hbase :
      ∀ (p : Production) (today : String) (rs : List EnrichedData),
        (eligibleEntries p.locations).isEmpty = false →
        (enrichProduction true today (GeminiReply.results rs) p).production.locations =
          applyGem (assignOf (eligibleEntries p.locations) rs) 0 p.locations := by
    intro p today rs hemp
    unfold enrichProduction
    rw [Bool.not_true, if_neg (by simp)]
    simp only [hemp, Bool.false_eq_true, if_false]
  refine ⟨?_, ?_, ?_, ?_⟩
  · intro p today
    unfold enrichProduction
    rw [Bool.not_true, if_neg (by simp)]
    by_cases hemp : eligibleEntries p.locations = [] <;> simp [hemp]
  · intro p today
    unfold enrichProduction
    rw [Bool.not_true, if_neg (by simp)]
    by_cases hemp : eligibleEntries p.locations = [] <;> simp [hemp]
  · intro p today rs j t hget hlen
    have hemp : (eligibleEntries p.locations).isEmpty = false := by
      rw [List.isEmpty_eq_false]
      exact List.ne_nil_of_mem (List.get?_mem hget)
    rw [hbase p today rs hemp, applyGem_get?]
    simp only [Nat.zero_add]
    rw [assignOf_eq_none_of_short (eligibleEntries p.locations) rs j t
      (eligibleEntries_pairwise p.locations) hget hlen]
    cases p.locations.get? t.1 <;> rfl
  · intro p today rs j t e hget hre
    have hemp : (eligibleEntries p.locations).isEmpty = false := by
      rw [List.isEmpty_eq_false]
      exact List.ne_nil_of_mem (List.get?_mem hget)
    rw [hbase p today rs hemp, applyGem_get?]
    simp only [Nat.zero_add]
    rw [assignOf_eq_some_of_get? (eligibleEntries p.locations) rs j t e
      (eligibleEntries_pairwise p.locations) hget hre]

/-- A two-location production whose reply has only one element: location 0
is merged, location 1 (request position 1, past the reply) is untouched. -/
def twoLocProd : Production :=
  { id := "p8"
    title := "Demo"
    properties := []
    crew := []
    cast := []
    locations :=
      [{ index := 1, tableId := none, data := [("Location Address", "1 A St")], gemData := [] }
      ,{ index := 2, tableId := none, data := [("Location Address", "2 B St")], gemData := [] }]
    scenes := [] }

/-- All ten reply fields present and non-blank. -/
def fullReplyElem : EnrichedData :=
  [ ("nearestHospital", "City Hospital")
  , ("nearestFireStation", "Station 7")
  , ("nearestPoliceStation", "Central Police")
  , ("nearestEmergencyAfterHours", "24h Clinic")
  , ("sunriseTime", "6:42 AM")
  , ("sunsetTime", "7:58 PM")
  , ("weatherTemp", "28C / 19C")
  , ("weatherDesc", "Sunny, 10% rain")
  , ("publicTransportInfo", "Bus 333")
  , ("transportDesc", "Head north 2 km") ]

theorem enrichProduction_soft_degradation_witness :
    (enrichProduction true "d" (GeminiReply.results [fullReplyElem]) twoLocProd).production.locations.get? 1 =
      twoLocProd.locations.get? 1 ∧
    (enrichProduction true "d" (GeminiReply.results [fullReplyElem]) twoLocProd).production.locations.get? 0 =
      (twoLocProd.locations.get? 0).map (fun loc => { loc with gemData := mergeGem fullReplyElem }) :=
  ⟨enrichProduction_soft_degradation.2.2.1 twoLocProd "d" [fullReplyElem] 1
      (1, "2 B St", none) (by decide) (by decide)
  , enrichProduction_soft_degradation.2.2.2 twoLocProd "d" [fullReplyElem] 0
      (0, "1 A St", some "2 B St") fullReplyElem (by decide) (by decide)⟩

/-! ## C4 — the merged `GEMtransportDesc` field -/

/-- The locations of the returned production when the reply is an array
and at least one location is eligible. -/
theorem enrichProduction_results_locations (p : Production) (today : String)
    (rs : List EnrichedData)
    (hemp : (eligibleEntries p.locations).isEmpty = false) :
    (enrichProduction true today (GeminiReply.results rs) p).production.locations =
      applyGem (assignOf (eligibleEntries p.locations) rs) 0 p.locations := by
  unfold enrichProduction
  rw [Bool.not_true, if_neg (by simp)]
  simp only [hemp, Bool.false_eq_true, if_false]

/-- The reply element for the last location carries a transport
description even though the prompt asked for `'N/A'`. -/
def lastLocReply : EnrichedData := [("transportDesc", "Drive north")]

/-- C4 counterexample: for a production whose only (hence last) location
has `nextAddress = null` — visible as the `(address, none)` pair in the
issued request — a reply supplying a non-empty `transportDesc` ends up in
`gemData` verbatim: the merge computes `transportDesc || 'N/A'` and does
NOT force `"N/A"` when `nextAddress` is null. -/
theorem transportDesc_not_forced_cex :
    (enrichProduction true "d" (GeminiReply.results [lastLocReply]) singleLocProd).calls =
      [{ pairs := [("12 Harbour St, Sydney", none)], dateStr := "2024-03-09" }] ∧
    (enrichProduction true "d" (GeminiReply.results [lastLocReply]) singleLocProd).production.locations.map
        (fun l => strLookup l.gemData "GEMtransportDesc") =
      [some "Drive north"] := by
  refine ⟨by decide, by decide⟩

/-- C4 amended: a merged location's `GEMtransportDesc` equals the reply's
`transportDesc` whenever that is a non-empty string (even for the last
location, whose `nextAddress` is null), and defaults to the literal
`"N/A"` exactly when the reply omits the field or returns the empty
string; the null-`nextAddress` forcing exists only in the prompt text, not
in the merge. -/
theorem merged_transportDesc_default (p : Production) (today : String)
    (rs : List EnrichedData) (i : Nat) (e : EnrichedData)
    (hassign : assignOf (eligibleEntries p.locations) rs i = some e) :
    (enrichProduction true today (GeminiReply.results rs) p).production.locations.get? i =
      (p.locations.get? i).map (fun loc => { loc with gemData := mergeGem e }) ∧
    strLookup (mergeGem e) "GEMtransportDesc" = some (fieldOrNA e "transportDesc") ∧
    ((strLookup e "transportDesc" = none ∨ strLookup e "transportDesc" = some "") →
      fieldOrNA e "transportDesc" = "N/A") ∧
    (∀ s, strLookup e "transportDesc" = some s → s ≠ "" → fieldOrNA e "transportDesc" = s) := by
  refine ⟨?_, ?_, ?_, ?_⟩
  · have hemp : (eligibleEntries p.locations).isEmpty = false := by
      obtain ⟨t, htm, _⟩ := assignOf_exists_entry _ _ _ _ hassign
      rw [List.isEmpty_eq_false]
      exact List.ne_nil_of_mem htm
    rw [enrichProduction_results_locations p today rs hemp, applyGem_get?]
    simp only [Nat.zero_add]
    rw [hassign]
  · rfl
  · rintro (h | h) <;> simp [fieldOrNA, h]
  · intro s hs hne
    unfold fieldOrNA
    rw [hs]
    simp [hne]

/-- A reply element with no `transportDesc` at all. -/
def noTransportReply : EnrichedData := [("nearestHospital", "City Hospital")]

theorem merged_transportDesc_default_witness :
    (enrichProduction true "d" (GeminiReply.results [noTransportReply]) singleLocProd).production.locations.get? 0 =
      (singleLocProd.locations.get? 0).map (fun loc => { loc with gemData := mergeGem noTransportReply }) ∧
    fieldOrNA noTransportReply "transportDesc" = "N/A" :=
  ⟨(merged_transportDesc_default singleLocProd "d" [noTransportReply] 0 noTransportReply (by decide)).1
  , (merged_transportDesc_default singleLocProd "d" [noTransportReply] 0 noTransportReply
      (by decide)).2.2.1 (Or.inl (by decide))⟩

/-! ## C3 — idempotence of enrichment -/

theorem eligLoc_eq_true_iff (loc : Location) :
    eligLoc loc = true ↔
      needsEnrichment loc.gemData = true ∧ ∃ a, locAddress loc = some a ∧ a ≠ "" := by
  unfold eligLoc
  cases ha : locAddress loc with
  | none => simp
  | some a => simp [bne_iff_ne]

/-- A reply element whose `nearestHospital` is whitespace-only: truthy in
JS, so the merge stores it, yet blank after trimming, so the location still
needs enrichment afterwards. -/
def blankHospitalElem : EnrichedData :=
  [ ("nearestHospital", " ")
  , ("nearestFireStation", "Station 7")
  , ("nearestPoliceStation", "Central Police")
  , ("nearestEmergencyAfterHours", "24h Clinic")
  , ("sunriseTime", "6:42 AM")
  , ("sunsetTime", "7:58 PM")
  , ("weatherTemp", "28C / 19C")
  , ("weatherDesc", "Sunny, 10% rain")
  , ("publicTransportInfo", "Bus 333")
  , ("transportDesc", "Head north 2 km") ]

/-- The fixed reply used in both passes of the C3 counterexample. -/
def idemReply : GeminiReply := GeminiReply.results [fullReplyElem, blankHospitalElem]

def firstEnrichPass : EnrichOutcome := enrichProduction true "d" idemReply twoLocProd

def secondEnrichPass : EnrichOutcome :=
  enrichProduction true "d" idemReply firstEnrichPass.production

/-- C3 counterexample: with the knowledge service returning the same fixed
array on both calls, the second `enrichProduction` call still changes a
location's `gemData` (and issues another knowledge-service call): the first
merge left location 2's `GEMnearestHospital` whitespace-only, so it stays
eligible, and on the second pass the reply is re-aligned from index 0,
assigning the first reply element to it. -/
theorem enrich_twice_changes_gemData_cex :
    secondEnrichPass.production.locations.map Location.gemData ≠
      firstEnrichPass.production.locations.map Location.gemData ∧
    secondEnrichPass.calls ≠ [] := by
  refine ⟨by decide, by decide⟩

/-- C3 amended: enrichment is idempotent provided the first call's reply
covers every eligible location and every reply element merges to a fully
non-blank `gemData`: then the second call with the same reply finds no
eligible location, changes nothing, issues no knowledge-service call, and
performs no table write-back.  (Without those provisos a whitespace-only or
missing field, or a short reply, leaves a location eligible and the second
pass re-aligns the reply from index 0, changing `gemData` again.) -/
theorem enrich_idempotent_of_covering_reply (p : Production) (today today2 : String)
    (rs : List EnrichedData)
    (hcover : (eligibleEntries p.locations).length ≤ rs.length)
    (hgood : ∀ e ∈ rs, needsEnrichment (mergeGem e) = false) :
    enrichProduction true today2 (GeminiReply.results rs)
        (enrichProduction true today (GeminiReply.results rs) p).production =
      { production := (enrichProduction true today (GeminiReply.results rs) p).production
        calls := []
        writebacks := [] } := by
  by_cases hemp : eligibleEntries p.locations = []
  · have h1 : (enrichProduction true today (GeminiReply.results rs) p).production = p := by
      unfold enrichProduction
      rw [Bool.not_true, if_neg (by simp)]
      simp [hemp]
    rw [h1]
    unfold enrichProduction
    rw [Bool.not_true, if_neg (by simp)]
    simp [hemp]
  · have hempF : (eligibleEntries p.locations).isEmpty = false := by
      rw [List.isEmpty_eq_false]
      exact hemp
    have hq := enrichProduction_results_locations p today rs hempF
    have hkey :
        eligibleEntries
          (enrichProduction true today (GeminiReply.results rs) p).production.locations = [] := by
      rw [eligibleEntries_eq_nil_iff]
      intro i loc hgi
      rw [hq, applyGem_get?] at hgi
      simp only [Nat.zero_add] at hgi
      cases hP : p.locations.get? i with
      | none => rw [hP] at hgi; simp at hgi
      | some loc0 =>
        rw [hP] at hgi
        cases hA : assignOf (eligibleEntries p.locations) rs i with
        | some e =>
          rw [hA] at hgi
          simp only [Option.map_some'] at hgi
          injection hgi with hgi
          have hge : loc.gemData = mergeGem e := by rw [← hgi]
          rw [Bool.eq_false_iff]
          intro helig
          obtain ⟨hneeds, _⟩ := (eligLoc_eq_true_iff loc).mp helig
          rw [hge, hgood e (assignOf_mem _ _ _ _ hA)] at hneeds
          exact Bool.false_ne_true hneeds
        | none =>
          rw [hA] at hgi
          simp only [Option.map_some'] at hgi
          injection hgi with hgi
          rw [Bool.eq_false_iff]
          intro helig
          rw [← hgi] at helig
          obtain ⟨hneeds, a, ha, hane⟩ := (eligLoc_eq_true_iff loc0).mp helig
          have hmem : (i, a, nextAddress p.locations i) ∈ eligibleEntries p.locations := by
            rw [mem_eligibleEntries]
            exact ⟨loc0, hP, hneeds, ha, hane, rfl⟩
          rw [List.mem_iff_get?] at hmem
          obtain ⟨j, hj⟩ := hmem
          have hjlt : j < (eligibleEntries p.locations).length :=
            (List.get?_eq_some.mp hj).1
          have hjrs : j < rs.length := Nat.lt_of_lt_of_le hjlt hcover
          have hrj : rs.get? j = some (rs.get ⟨j, hjrs⟩) := List.get?_eq_get hjrs
          have := assignOf_eq_some_of_get? (eligibleEntries p.locations) rs j
            (i, a, nextAddress p.locations i) (rs.get ⟨j, hjrs⟩)
            (eligibleEntries_pairwise p.locations) hj hrj
          simp only at this
          rw [hA] at this
          exact Option.noConfusion this
    generalize hQ : (enrichProduction true today (GeminiReply.results rs) p).production = q at hkey ⊢
    unfold enrichProduction
    rw [Bool.not_true, if_neg (by simp)]
    simp [hkey]

theorem enrich_idempotent_of_covering_reply_witness :
    enrichProduction true "d" (GeminiReply.results [fullReplyElem, fullReplyElem])
        ((enrichProduction true "d" (GeminiReply.results [fullReplyElem, fullReplyElem]) twoLocProd).production) =
      { production :=
          (enrichProduction true "d" (GeminiReply.results [fullReplyElem, fullReplyElem]) twoLocProd).production
        calls := []
        writebacks := [] } :=
  enrich_idempotent_of_covering_reply twoLocProd "d" "d" [fullReplyElem, fullReplyElem]
    (by decide) (by decide)
